import Mathlib

/-!
Verification of the parcel-identifier normalization core (identifier.py).

Strings are modelled as List Char.  The regex class [a-zA-Z0-9] from the
source is modelled by isAlnumChar; Python str.strip() is modelled by
pyStrip over the ASCII whitespace characters it removes (the examples in
this development are all ASCII).
-/

/-- A character matches the regex class [a-zA-Z0-9] (ASCII letters and digits). -/
def isAlnumChar (c : Char) : Bool :=
  ('a' ≤ c && c ≤ 'z') || ('A' ≤ c && c ≤ 'Z') || ('0' ≤ c && c ≤ '9')

/-- re.sub applied with pattern [^a-zA-Z0-9] and empty replacement:
keep only ASCII letters and digits, preserving order. -/
def stripNonAlnum (l : List Char) : List Char :=
  l.filter isAlnumChar

/-- The two separator characters recorded by the extractor. -/
def isSep (c : Char) : Bool :=
  c == '-' || c == '.'

/-- ASCII whitespace removed by Python str.strip(). -/
def isPySpace (c : Char) : Bool :=
  c == ' ' || c == '\t' || c == '\n' || c == '\r' || c == '\x0b' || c == '\x0c'

/-- Python str.strip(): remove whitespace from both ends of the string. -/
def pyStrip (l : List Char) : List Char :=
  ((l.dropWhile isPySpace).reverse.dropWhile isPySpace).reverse

/-- The per-example dict stored by the app: insertion_points and target_length. -/
structure ParcelFormat where
  insertion_points : List (Nat × Char)
  target_length : Nat
deriving DecidableEq

/-- The scan loop of parse_parcel_format: walk the example left to right with a
running count of alphanumeric characters; record (count, c) for each dash or
period; ignore every other non-alphanumeric character. -/
def parseInsertionPoints : List Char → Nat → List (Nat × Char)
  | [], _ => []
  | c :: cs, n =>
    if isAlnumChar c then parseInsertionPoints cs (n + 1)
    else if isSep c then (n, c) :: parseInsertionPoints cs n
    else parseInsertionPoints cs n

/-- parse_parcel_format: returns the alphanumeric core, the insertion points,
and the target length (length of the whitespace-trimmed example). -/
def parse_parcel_format (l : List Char) : List Char × List (Nat × Char) × Nat :=
  (stripNonAlnum l, parseInsertionPoints l 0, (pyStrip l).length)

/-- One insertion step of format_parcel_id: insert the separator at the given
index when it fits, otherwise append it at the end. -/
def insertOne (out : List Char) (p : Nat × Char) : List Char :=
  if p.1 ≤ out.length then out.take p.1 ++ p.2 :: out.drop p.1 else out ++ [p.2]

/-- format_parcel_id: apply the insertion points from right to left
(the source iterates reversed(insertion_points)). -/
def format_parcel_id (s : List Char) (pts : List (Nat × Char)) : List Char :=
  pts.reverse.foldl insertOne s

/-- The literal failure sentinel returned by the source. -/
def sentinel : List Char := "Unable to reformat".toList

/-- attempt_format: strip the raw value to its alphanumeric core, fail on an
empty core, re-insert the template's separators, and accept exactly when the
resulting length equals the template's target_length. -/
def attempt_format (raw : List Char) (fmt : ParcelFormat) : List Char :=
  let a := stripNonAlnum raw
  if a = [] then sentinel
  else
    let final := format_parcel_id a fmt.insertion_points
    if final.length ≠ fmt.target_length then sentinel else final

/-- detect_and_format_multi: try the formats in order, return the first
candidate that is not the sentinel, or the sentinel if all fail. -/
def detect_and_format_multi (raw : List Char) : List ParcelFormat → List Char
  | [] => sentinel
  | f :: fs =>
    let candidate := attempt_format raw f
    if candidate ≠ sentinel then candidate else detect_and_format_multi raw fs

/-- Python slice s[a:b] for non-negative bounds (clamped, empty when b ≤ a). -/
def pySlice (l : List Char) (a b : Nat) : List Char := (l.take b).drop a

/-- The slicing loop of get_parts_for_multi: successive slices of the
alphanumeric core between consecutive insertion positions, plus the remainder. -/
def partsFrom (s : List Char) : Nat → List (Nat × Char) → List (List Char)
  | start, [] => [s.drop start]
  | start, (p, _) :: rest => pySlice s start p :: partsFrom s p rest

/-- get_parts_for_multi: find the first format whose attempt succeeds, re-strip
its candidate to the alphanumeric core and slice it at the insertion positions;
return the empty list when no format matches. -/
def get_parts_for_multi (raw : List Char) : List ParcelFormat → List (List Char)
  | [] => []
  | f :: fs =>
    let candidate := attempt_format raw f
    if candidate ≠ sentinel then
      partsFrom (stripNonAlnum candidate) 0 f.insertion_points
    else get_parts_for_multi raw fs

/-- Helper for the spec-side reconstruction: s is the yet-unconsumed suffix of
the original alphanumeric string and k the number of its characters already
emitted, so a point at position p contributes the next p - k characters
followed by its separator. -/
def reconstructSpecGo : List Char → Nat → List (Nat × Char) → List Char
  | s, _, [] => s
  | s, k, (p, c) :: rest =>
    s.take (p - k) ++ c :: reconstructSpecGo (s.drop (p - k)) p rest

/-- Spec-side definition of reconstruction, following the spec's words: each
(position, separator) pair places its separator immediately after the first
position characters of the original alphanumeric string, processed left to
right. -/
def reconstructSpec (s : List Char) (pts : List (Nat × Char)) : List Char :=
  reconstructSpecGo s 0 pts

/-! ### Basic facts about format_parcel_id -/

theorem format_parcel_id_eq_foldr (s : List Char) (pts : List (Nat × Char)) :
    format_parcel_id s pts = pts.foldr (fun p out => insertOne out p) s := by
  unfold format_parcel_id
  rw [List.foldl_reverse]

theorem format_parcel_id_nil (s : List Char) : format_parcel_id s [] = s := rfl

theorem format_parcel_id_cons (s : List Char) (p : Nat × Char)
    (pts : List (Nat × Char)) :
    format_parcel_id s (p :: pts) = insertOne (format_parcel_id s pts) p := by
  rw [format_parcel_id_eq_foldr, format_parcel_id_eq_foldr, List.foldr_cons]

theorem format_parcel_id_append (s : List Char) (l1 l2 : List (Nat × Char)) :
    format_parcel_id s (l1 ++ l2) = format_parcel_id (format_parcel_id s l2) l1 := by
  rw [format_parcel_id_eq_foldr, format_parcel_id_eq_foldr, format_parcel_id_eq_foldr,
    List.foldr_append]

theorem insertOne_length (out : List Char) (p : Nat × Char) :
    (insertOne out p).length = out.length + 1 := by
  unfold insertOne
  split
  · simp only [List.length_append, List.length_take, List.length_cons, List.length_drop]
    omega
  · simp

theorem format_parcel_id_length (s : List Char) (pts : List (Nat × Char)) :
    (format_parcel_id s pts).length = s.length + pts.length := by
  induction pts with
  | nil => rfl
  | cons p rest ih =>
    rw [format_parcel_id_cons, insertOne_length, ih, List.length_cons]
    omega

theorem mem_insertOne (c : Char) (out : List Char) (p : Nat × Char)
    (h : c ∈ insertOne out p) : c ∈ out ∨ c = p.2 := by
  unfold insertOne at h
  split at h
  · rcases List.mem_append.mp h with h1 | h1
    · exact Or.inl (List.mem_of_mem_take h1)
    · rcases List.mem_cons.mp h1 with h2 | h2
      · exact Or.inr h2
      · exact Or.inl (List.mem_of_mem_drop h2)
  · rcases List.mem_append.mp h with h1 | h1
    · exact Or.inl h1
    · exact Or.inr (List.mem_singleton.mp h1)

theorem mem_format_parcel_id (c : Char) (s : List Char) (pts : List (Nat × Char))
    (h : c ∈ format_parcel_id s pts) : c ∈ s ∨ ∃ q ∈ pts, c = q.2 := by
  induction pts with
  | nil => exact Or.inl h
  | cons p rest ih =>
    rw [format_parcel_id_cons] at h
    rcases mem_insertOne c _ p h with h1 | h1
    · rcases ih h1 with h2 | ⟨q, hq, hc⟩
      · exact Or.inl h2
      · exact Or.inr ⟨q, List.mem_cons_of_mem _ hq, hc⟩
    · exact Or.inr ⟨p, List.mem_cons_self _ _, h1⟩

theorem stripNonAlnum_insertOne (out : List Char) (p : Nat × Char)
    (hp : isAlnumChar p.2 = false) :
    stripNonAlnum (insertOne out p) = stripNonAlnum out := by
  unfold insertOne stripNonAlnum
  split
  · rw [List.filter_append, List.filter_cons_of_neg (by simp [hp]),
      ← List.filter_append, List.take_append_drop]
  · rw [List.filter_append, List.filter_cons_of_neg (by simp [hp]),
      List.filter_nil, List.append_nil]

theorem stripNonAlnum_format_parcel_id (s : List Char) (pts : List (Nat × Char))
    (hsep : ∀ q ∈ pts, isAlnumChar q.2 = false) :
    stripNonAlnum (format_parcel_id s pts) = stripNonAlnum s := by
  induction pts with
  | nil => rfl
  | cons p rest ih =>
    rw [format_parcel_id_cons, stripNonAlnum_insertOne _ _ (hsep p (List.mem_cons_self _ _)),
      ih (fun q hq => hsep q (List.mem_cons_of_mem _ hq))]

theorem stripNonAlnum_idem (l : List Char) :
    stripNonAlnum (stripNonAlnum l) = stripNonAlnum l := by
  unfold stripNonAlnum
  rw [List.filter_filter]
  apply List.filter_congr
  intro a _
  simp only [Bool.and_self]

theorem mem_stripNonAlnum (c : Char) (l : List Char) (h : c ∈ stripNonAlnum l) :
    isAlnumChar c = true := by
  exact (List.mem_filter.mp h).2

theorem sep_not_alnum (c : Char) (h : c = '-' ∨ c = '.') : isAlnumChar c = false := by
  rcases h with h | h <;> subst h <;> decide

theorem format_parcel_id_ne_sentinel (r : List Char) (pts : List (Nat × Char))
    (hsep : ∀ q ∈ pts, q.2 = '-' ∨ q.2 = '.') :
    format_parcel_id (stripNonAlnum r) pts ≠ sentinel := by
  intro h
  have hsp : ' ' ∈ format_parcel_id (stripNonAlnum r) pts := by
    rw [h]
    decide
  rcases mem_format_parcel_id _ _ _ hsp with h1 | ⟨q, hq, hc⟩
  · have := mem_stripNonAlnum _ _ h1
    simp [isAlnumChar] at this
  · rcases hsep q hq with h2 | h2 <;> rw [h2] at hc <;> exact absurd hc (by decide)

/-! ### Facts about the extractor scan -/

theorem parseInsertionPoints_succ (l : List Char) :
    ∀ n, parseInsertionPoints l (n + 1) =
      (parseInsertionPoints l n).map (fun q => (q.1 + 1, q.2)) := by
  induction l with
  | nil => intro n; rfl
  | cons c cs ih =>
    intro n
    by_cases h1 : isAlnumChar c = true
    · simp only [parseInsertionPoints, h1, if_true]
      exact ih (n + 1)
    · by_cases h2 : isSep c = true
      · simp only [parseInsertionPoints, h1, h2, if_true, if_false, Bool.false_eq_true,
          List.map_cons]
        rw [ih n]
      · simp only [parseInsertionPoints, h1, h2, if_false, Bool.false_eq_true]
        exact ih n

theorem parseInsertionPoints_shift (l : List Char) :
    ∀ n, parseInsertionPoints l n =
      (parseInsertionPoints l 0).map (fun q => (q.1 + n, q.2)) := by
  intro n
  induction n with
  | zero =>
    rw [show (fun (q : Nat × Char) => (q.1 + 0, q.2)) = id from rfl, List.map_id]
  | succ n ih =>
    rw [parseInsertionPoints_succ, ih, List.map_map]
    rfl

theorem parseInsertionPoints_cons_alnum (c : Char) (cs : List Char) (n : Nat)
    (h : isAlnumChar c = true) :
    parseInsertionPoints (c :: cs) n = parseInsertionPoints cs (n + 1) := by
  simp [parseInsertionPoints, h]

theorem parseInsertionPoints_cons_sep (c : Char) (cs : List Char) (n : Nat)
    (h1 : isAlnumChar c = false) (h2 : isSep c = true) :
    parseInsertionPoints (c :: cs) n = (n, c) :: parseInsertionPoints cs n := by
  simp [parseInsertionPoints, h1, h2]

theorem parseInsertionPoints_cons_other (c : Char) (cs : List Char) (n : Nat)
    (h1 : isAlnumChar c = false) (h2 : isSep c = false) :
    parseInsertionPoints (c :: cs) n = parseInsertionPoints cs n := by
  simp [parseInsertionPoints, h1, h2]

theorem stripNonAlnum_cons_pos (c : Char) (cs : List Char) (h : isAlnumChar c = true) :
    stripNonAlnum (c :: cs) = c :: stripNonAlnum cs := by
  simp [stripNonAlnum, List.filter_cons_of_pos h]

theorem stripNonAlnum_cons_neg (c : Char) (cs : List Char) (h : isAlnumChar c = false) :
    stripNonAlnum (c :: cs) = stripNonAlnum cs := by
  simp only [stripNonAlnum]
  exact List.filter_cons_of_neg (by simp [h])

theorem parseInsertionPoints_append (l1 l2 : List Char) :
    ∀ n, parseInsertionPoints (l1 ++ l2) n =
      parseInsertionPoints l1 n ++
        parseInsertionPoints l2 (n + (stripNonAlnum l1).length) := by
  induction l1 with
  | nil =>
    intro n
    simp [parseInsertionPoints, stripNonAlnum]
  | cons c cs ih =>
    intro n
    rw [List.cons_append]
    by_cases h1 : isAlnumChar c = true
    · rw [parseInsertionPoints_cons_alnum _ _ _ h1, parseInsertionPoints_cons_alnum _ _ _ h1,
        ih (n + 1), stripNonAlnum_cons_pos _ _ h1, List.length_cons]
      have harith : n + 1 + (stripNonAlnum cs).length =
          n + ((stripNonAlnum cs).length + 1) := by
        omega
      rw [harith]
    · have h1f : isAlnumChar c = false := by
        exact Bool.not_eq_true _ ▸ (by simpa using h1)
      by_cases h2 : isSep c = true
      · rw [parseInsertionPoints_cons_sep _ _ _ h1f h2,
          parseInsertionPoints_cons_sep _ _ _ h1f h2, ih n,
          stripNonAlnum_cons_neg _ _ h1f, List.cons_append]
      · have h2f : isSep c = false := by
          exact Bool.not_eq_true _ ▸ (by simpa using h2)
        rw [parseInsertionPoints_cons_other _ _ _ h1f h2f,
          parseInsertionPoints_cons_other _ _ _ h1f h2f, ih n,
          stripNonAlnum_cons_neg _ _ h1f]

/-! ### Facts about pyStrip -/

theorem dropWhile_eq_self_of_forall {p : Char → Bool} {l : List Char}
    (h : ∀ c ∈ l, p c = false) : l.dropWhile p = l := by
  cases l with
  | nil => rfl
  | cons a l =>
    simp [List.dropWhile, h a (List.mem_cons_self _ _)]

theorem pyStrip_eq_self {l : List Char} (h : ∀ c ∈ l, isPySpace c = false) :
    pyStrip l = l := by
  unfold pyStrip
  rw [dropWhile_eq_self_of_forall h, dropWhile_eq_self_of_forall (by
    intro c hc
    exact h c (List.mem_reverse.mp hc)), List.reverse_reverse]

theorem alnum_not_pyspace (c : Char) (h : isAlnumChar c = true) :
    isPySpace c = false := by
  by_contra hcon
  rw [Bool.not_eq_false] at hcon
  simp only [isPySpace, Bool.or_eq_true, beq_iff_eq] at hcon
  rcases hcon with ((((h1 | h1) | h1) | h1) | h1) | h1 <;> subst h1 <;> revert h <;> decide

theorem sep_not_pyspace (c : Char) (h : isSep c = true) : isPySpace c = false := by
  simp only [isSep, Bool.or_eq_true, beq_iff_eq] at h
  rcases h with h | h <;> subst h <;> decide

/-! ### Round trip: reconstructing an example from its own template -/

theorem insertOne_cons_succ (c : Char) (out : List Char) (p : Nat) (d : Char) :
    insertOne (c :: out) (p + 1, d) = c :: insertOne out (p, d) := by
  unfold insertOne
  by_cases h : p ≤ out.length
  · rw [if_pos (by simpa using Nat.succ_le_succ h), if_pos h]
    rfl
  · rw [if_neg (by simp; omega), if_neg h]
    rfl

theorem format_parcel_id_map_succ (pts : List (Nat × Char)) (c : Char) (s : List Char) :
    format_parcel_id (c :: s) (pts.map (fun q => (q.1 + 1, q.2))) =
      c :: format_parcel_id s pts := by
  induction pts with
  | nil => rfl
  | cons p rest ih =>
    rcases p with ⟨p, d⟩
    rw [List.map_cons, format_parcel_id_cons, ih, format_parcel_id_cons]
    exact insertOne_cons_succ c _ p d

theorem format_parcel_id_zero_sep (s : List Char) (c : Char) (pts : List (Nat × Char)) :
    format_parcel_id s ((0, c) :: pts) = c :: format_parcel_id s pts := by
  rw [format_parcel_id_cons]
  unfold insertOne
  rw [if_pos (Nat.zero_le _)]
  rfl

theorem roundtrip_format (e : List Char)
    (h : ∀ c ∈ e, isAlnumChar c = true ∨ isSep c = true) :
    format_parcel_id (stripNonAlnum e) (parseInsertionPoints e 0) = e := by
  induction e with
  | nil => rfl
  | cons c cs ih =>
    have hcs : ∀ x ∈ cs, isAlnumChar x = true ∨ isSep x = true := by
      intro x hx
      exact h x (List.mem_cons_of_mem _ hx)
    rcases h c (List.mem_cons_self _ _) with h1 | h1
    · have hstrip : stripNonAlnum (c :: cs) = c :: stripNonAlnum cs := by
        simp [stripNonAlnum, List.filter_cons_of_pos h1]
      have hparse : parseInsertionPoints (c :: cs) 0 =
          (parseInsertionPoints cs 0).map (fun q => (q.1 + 1, q.2)) := by
        simp only [parseInsertionPoints, h1, if_true]
        exact parseInsertionPoints_succ cs 0
      rw [hstrip, hparse, format_parcel_id_map_succ, ih hcs]
    · have h2 : isAlnumChar c = false := by
        simp only [isSep, Bool.or_eq_true, beq_iff_eq] at h1
        rcases h1 with h1 | h1 <;> subst h1 <;> decide
      have hstrip : stripNonAlnum (c :: cs) = stripNonAlnum cs := by
        simp only [stripNonAlnum]
        exact List.filter_cons_of_neg (by simp [h2])
      have hparse : parseInsertionPoints (c :: cs) 0 =
          (0, c) :: parseInsertionPoints cs 0 := by
        simp [parseInsertionPoints, h2, h1]
      rw [hstrip, hparse, format_parcel_id_zero_sep, ih hcs]

/-! ### Right-to-left insertion refines the left-to-right spec reconstruction -/

theorem insertOne_zero (out : List Char) (c : Char) :
    insertOne out (0, c) = c :: out := by
  unfold insertOne
  rw [if_pos (Nat.zero_le _)]
  rfl

theorem insertOne_append (A X : List Char) (q : Nat) (c : Char) (h : A.length ≤ q) :
    insertOne (A ++ X) (q, c) = A ++ insertOne X (q - A.length, c) := by
  unfold insertOne
  by_cases hq : q ≤ A.length + X.length
  · rw [if_pos (by simp only [List.length_append]; omega), if_pos (by omega)]
    rw [List.take_append_eq_append_take, List.drop_append_eq_append_drop,
      List.take_of_length_le h, List.drop_eq_nil_iff.mpr h]
    simp [List.append_assoc]
  · rw [if_neg (by simp only [List.length_append]; omega), if_neg (by omega)]
    simp [List.append_assoc]

theorem format_parcel_id_split (s : List Char) (pts : List (Nat × Char)) (p : Nat)
    (hall : ∀ q ∈ pts, p ≤ q.1) (hps : p ≤ s.length) :
    format_parcel_id s pts =
      s.take p ++ format_parcel_id (s.drop p) (pts.map (fun q => (q.1 - p, q.2))) := by
  induction pts with
  | nil => exact (List.take_append_drop p s).symm
  | cons q rest ih =>
    rcases q with ⟨q, c⟩
    have hq1 : p ≤ q := hall (q, c) (List.mem_cons_self _ _)
    have hlen : (s.take p).length = p := by
      rw [List.length_take]
      omega
    rw [format_parcel_id_cons, List.map_cons, format_parcel_id_cons,
      ih (fun x hx => hall x (List.mem_cons_of_mem _ hx)),
      insertOne_append _ _ _ _ (by rw [hlen]; exact hq1), hlen]

theorem format_parcel_id_eq_reconstructSpecGo (pts : List (Nat × Char)) :
    ∀ (s : List Char) (k : Nat),
      List.Pairwise (fun a b => a.1 ≤ b.1) pts →
      (∀ q ∈ pts, k ≤ q.1) →
      (∀ q ∈ pts, q.1 - k ≤ s.length) →
      format_parcel_id s (pts.map (fun q => (q.1 - k, q.2))) =
        reconstructSpecGo s k pts := by
  induction pts with
  | nil =>
    intro s k _ _ _
    rfl
  | cons q rest ih =>
    rcases q with ⟨p, c⟩
    intro s k hpw hk hlen
    have hpairs : ∀ x ∈ rest, p ≤ x.1 := (List.pairwise_cons.mp hpw).1
    have hkp : k ≤ p := hk (p, c) (List.mem_cons_self _ _)
    have hps : p - k ≤ s.length := by
      simpa using hlen (p, c) (List.mem_cons_self _ _)
    rw [List.map_cons, format_parcel_id_cons,
      format_parcel_id_split s (rest.map (fun q => (q.1 - k, q.2))) (p - k)
        (by
          intro x hx
          rcases List.mem_map.mp hx with ⟨a, ha, rfl⟩
          have := hpairs a ha
          simp only
          omega) hps]
    have hlentake : (s.take (p - k)).length = p - k := by
      rw [List.length_take]
      omega
    rw [insertOne_append _ _ _ _ (le_of_eq hlentake), hlentake, Nat.sub_self, insertOne_zero]
    have hmm : (rest.map (fun q => (q.1 - k, q.2))).map (fun q => (q.1 - (p - k), q.2)) =
        rest.map (fun q => (q.1 - p, q.2)) := by
      rw [List.map_map]
      apply List.map_congr_left
      intro a ha
      have := hpairs a ha
      simp only [Function.comp]
      rw [Prod.mk.injEq]
      exact ⟨by omega, rfl⟩
    rw [hmm, ih (s.drop (p - k)) p (List.Pairwise.of_cons hpw) hpairs
      (by
        intro x hx
        have h1 := hlen x (List.mem_cons_of_mem _ hx)
        have h2 := hpairs x hx
        rw [List.length_drop]
        omega)]
    rfl

theorem format_parcel_id_eq_reconstructSpec (s : List Char) (pts : List (Nat × Char))
    (hpw : List.Pairwise (fun a b => a.1 ≤ b.1) pts)
    (hle : ∀ q ∈ pts, q.1 ≤ s.length) :
    format_parcel_id s pts = reconstructSpec s pts := by
  have h := format_parcel_id_eq_reconstructSpecGo pts s 0 hpw
    (fun q _ => Nat.zero_le _) (fun q hq => by simpa using hle q hq)
  rw [show pts.map (fun q => (q.1 - 0, q.2)) = pts by
    rw [show (fun (q : Nat × Char) => (q.1 - 0, q.2)) = id from rfl, List.map_id]] at h
  exact h

/-! ### Segment concatenation -/

theorem flatten_partsFrom (pts : List (Nat × Char)) :
    ∀ (s : List Char) (start : Nat),
      List.Pairwise (fun a b => a.1 ≤ b.1) pts →
      (∀ q ∈ pts, start ≤ q.1) →
      (partsFrom s start pts).flatten = s.drop start := by
  induction pts with
  | nil =>
    intro s start _ _
    simp [partsFrom]
  | cons q rest ih =>
    rcases q with ⟨p, c⟩
    intro s start hpw hstart
    have hsp : start ≤ p := hstart (p, c) (List.mem_cons_self _ _)
    rw [show partsFrom s start ((p, c) :: rest) = pySlice s start p :: partsFrom s p rest
      from rfl, List.flatten_cons,
      ih s p (List.Pairwise.of_cons hpw) (List.pairwise_cons.mp hpw).1]
    unfold pySlice
    conv_rhs => rw [← List.take_append_drop p s]
    rw [List.drop_append_eq_append_drop]
    congr 1
    rw [List.length_take]
    by_cases hmin : start ≤ min p s.length
    · rw [Nat.sub_eq_zero_of_le hmin, List.drop_zero]
    · have hd : s.drop p = [] := List.drop_eq_nil_iff.mpr (by omega)
      rw [hd]
      simp

/-! ### Characterizing attempt_format and detect_and_format_multi -/

theorem attempt_format_sentinel_of_empty (r : List Char) (fmt : ParcelFormat)
    (h : stripNonAlnum r = []) : attempt_format r fmt = sentinel := by
  simp [attempt_format, h]

theorem attempt_format_sentinel_of_len (r : List Char) (fmt : ParcelFormat)
    (h : (format_parcel_id (stripNonAlnum r) fmt.insertion_points).length ≠
      fmt.target_length) :
    attempt_format r fmt = sentinel := by
  by_cases ha : stripNonAlnum r = []
  · exact attempt_format_sentinel_of_empty r fmt ha
  · simp only [attempt_format]
    rw [if_neg ha, if_pos h]

theorem attempt_format_eq_candidate (r : List Char) (fmt : ParcelFormat)
    (h1 : stripNonAlnum r ≠ [])
    (h2 : (format_parcel_id (stripNonAlnum r) fmt.insertion_points).length =
      fmt.target_length) :
    attempt_format r fmt = format_parcel_id (stripNonAlnum r) fmt.insertion_points := by
  simp only [attempt_format]
  rw [if_neg h1, if_neg (fun hn => hn h2)]

theorem attempt_format_success (r : List Char) (fmt : ParcelFormat)
    (h : attempt_format r fmt ≠ sentinel) :
    attempt_format r fmt = format_parcel_id (stripNonAlnum r) fmt.insertion_points ∧
      stripNonAlnum r ≠ [] ∧
      (format_parcel_id (stripNonAlnum r) fmt.insertion_points).length =
        fmt.target_length := by
  by_cases ha : stripNonAlnum r = []
  · exact absurd (attempt_format_sentinel_of_empty r fmt ha) h
  · by_cases hl : (format_parcel_id (stripNonAlnum r) fmt.insertion_points).length =
      fmt.target_length
    · exact ⟨attempt_format_eq_candidate r fmt ha hl, ha, hl⟩
    · exact absurd (attempt_format_sentinel_of_len r fmt hl) h

theorem attempt_format_eq_sentinel_iff (r : List Char) (fmt : ParcelFormat)
    (hsep : ∀ q ∈ fmt.insertion_points, q.2 = '-' ∨ q.2 = '.') :
    attempt_format r fmt = sentinel ↔
      ((stripNonAlnum r).length = 0 ∨
        (stripNonAlnum r).length + fmt.insertion_points.length ≠ fmt.target_length) := by
  constructor
  · intro h
    by_contra hcon
    push_neg at hcon
    rcases hcon with ⟨hlen, htgt⟩
    have ha : stripNonAlnum r ≠ [] := by
      intro he
      rw [he] at hlen
      exact hlen rfl
    have hl : (format_parcel_id (stripNonAlnum r) fmt.insertion_points).length =
        fmt.target_length := by
      rw [format_parcel_id_length]
      exact htgt
    rw [attempt_format_eq_candidate r fmt ha hl] at h
    exact format_parcel_id_ne_sentinel r fmt.insertion_points hsep h
  · intro h
    rcases h with h | h
    · exact attempt_format_sentinel_of_empty r fmt (List.length_eq_zero.mp h)
    · apply attempt_format_sentinel_of_len
      rw [format_parcel_id_length]
      exact h

theorem detect_nil (r : List Char) : detect_and_format_multi r [] = sentinel := rfl

theorem detect_cons (r : List Char) (f : ParcelFormat) (fs : List ParcelFormat) :
    detect_and_format_multi r (f :: fs) =
      if attempt_format r f ≠ sentinel then attempt_format r f
      else detect_and_format_multi r fs := rfl

theorem get_parts_nil (r : List Char) : get_parts_for_multi r [] = [] := rfl

theorem get_parts_cons (r : List Char) (f : ParcelFormat) (fs : List ParcelFormat) :
    get_parts_for_multi r (f :: fs) =
      if attempt_format r f ≠ sentinel then
        partsFrom (stripNonAlnum (attempt_format r f)) 0 f.insertion_points
      else get_parts_for_multi r fs := rfl

theorem attempt_format_chars (r : List Char) (fmt : ParcelFormat)
    (hsep : ∀ q ∈ fmt.insertion_points, q.2 = '-' ∨ q.2 = '.')
    (h : attempt_format r fmt ≠ sentinel) :
    ∀ c ∈ attempt_format r fmt, isAlnumChar c = true ∨ c = '-' ∨ c = '.' := by
  obtain ⟨heq, _, _⟩ := attempt_format_success r fmt h
  rw [heq]
  intro c hc
  rcases mem_format_parcel_id c _ _ hc with h1 | ⟨q, hq, rfl⟩
  · exact Or.inl (mem_stripNonAlnum c _ h1)
  · exact Or.inr (hsep q hq)

theorem detect_chars (r : List Char) (ts : List ParcelFormat)
    (hts : ∀ f ∈ ts, ∀ q ∈ f.insertion_points, q.2 = '-' ∨ q.2 = '.')
    (h : detect_and_format_multi r ts ≠ sentinel) :
    ∀ c ∈ detect_and_format_multi r ts, isAlnumChar c = true ∨ c = '-' ∨ c = '.' := by
  induction ts with
  | nil => exact absurd (detect_nil r) h
  | cons f fs ih =>
    rw [detect_cons] at h ⊢
    by_cases hf : attempt_format r f = sentinel
    · rw [if_neg (not_not_intro hf)] at h ⊢
      exact ih (fun g hg => hts g (List.mem_cons_of_mem _ hg)) h
    · rw [if_pos hf] at h ⊢
      exact attempt_format_chars r f (hts f (List.mem_cons_self _ _)) hf

/-! ### Claim theorems -/

/-- C1: for every raw string and template with dash/period separators,
attempt_format returns the reconstructed candidate exactly when the stripped
string is non-empty and the candidate's length equals the target length; in
every other case it returns the sentinel; and whether the sentinel is returned
depends only on the stripped string's length (length is the sole acceptance
criterion, with no per-position character-class check). -/
theorem c1_attempt_length_sole_criterion (r : List Char) (fmt : ParcelFormat)
    (hsep : ∀ q ∈ fmt.insertion_points, q.2 = '-' ∨ q.2 = '.') :
    (attempt_format r fmt = format_parcel_id (stripNonAlnum r) fmt.insertion_points ↔
      (stripNonAlnum r ≠ [] ∧
        (format_parcel_id (stripNonAlnum r) fmt.insertion_points).length =
          fmt.target_length)) ∧
    (¬(stripNonAlnum r ≠ [] ∧
        (format_parcel_id (stripNonAlnum r) fmt.insertion_points).length =
          fmt.target_length) →
      attempt_format r fmt = sentinel) ∧
    (∀ r2 : List Char, (stripNonAlnum r2).length = (stripNonAlnum r).length →
      (attempt_format r2 fmt = sentinel ↔ attempt_format r fmt = sentinel)) := by
  refine ⟨⟨?_, ?_⟩, ?_, ?_⟩
  · intro h
    by_cases ha : stripNonAlnum r = []
    · exfalso
      have hs := attempt_format_sentinel_of_empty r fmt ha
      rw [hs] at h
      exact format_parcel_id_ne_sentinel r fmt.insertion_points hsep h.symm
    · by_cases hl : (format_parcel_id (stripNonAlnum r) fmt.insertion_points).length =
        fmt.target_length
      · exact ⟨ha, hl⟩
      · exfalso
        have hs := attempt_format_sentinel_of_len r fmt hl
        rw [hs] at h
        exact format_parcel_id_ne_sentinel r fmt.insertion_points hsep h.symm
  · rintro ⟨ha, hl⟩
    exact attempt_format_eq_candidate r fmt ha hl
  · intro h
    by_cases ha : stripNonAlnum r = []
    · exact attempt_format_sentinel_of_empty r fmt ha
    · exact attempt_format_sentinel_of_len r fmt (fun hb => h ⟨ha, hb⟩)
  · intro r2 hlen
    rw [attempt_format_eq_sentinel_iff r2 fmt hsep,
      attempt_format_eq_sentinel_iff r fmt hsep, hlen]

/-- Witness for C1 on the concrete input 123456789 with the template parsed
from 12-345.6789. -/
theorem c1_attempt_length_sole_criterion_witness :
    attempt_format "123456789".toList ⟨[(2, '-'), (5, '.')], 11⟩ =
      format_parcel_id (stripNonAlnum "123456789".toList)
        (ParcelFormat.mk [(2, '-'), (5, '.')] 11).insertion_points :=
  ((c1_attempt_length_sole_criterion "123456789".toList ⟨[(2, '-'), (5, '.')], 11⟩
    (by decide)).1).mpr ⟨by decide, by decide⟩

/-- C2: detect_and_format_multi returns the sentinel exactly when every
template's attempt fails, and otherwise returns the result of attempt_format
for the first template in list order whose attempt succeeds (first-added,
first-tried). -/
theorem c2_first_match_wins (r : List Char) :
    (∀ ts : List ParcelFormat,
      detect_and_format_multi r ts = sentinel ↔
        ∀ f ∈ ts, attempt_format r f = sentinel) ∧
    (∀ (ts1 : List ParcelFormat) (f : ParcelFormat) (ts2 : List ParcelFormat),
      (∀ g ∈ ts1, attempt_format r g = sentinel) →
      attempt_format r f ≠ sentinel →
      detect_and_format_multi r (ts1 ++ f :: ts2) = attempt_format r f) := by
  constructor
  · intro ts
    induction ts with
    | nil => simp [detect_nil]
    | cons f fs ih =>
      rw [detect_cons]
      by_cases h : attempt_format r f = sentinel
      · rw [if_neg (not_not_intro h), ih]
        constructor
        · intro hall g hg
          rcases List.mem_cons.mp hg with rfl | hg2
          · exact h
          · exact hall g hg2
        · intro hall g hg
          exact hall g (List.mem_cons_of_mem _ hg)
      · rw [if_pos h]
        constructor
        · intro habs
          exact absurd habs h
        · intro hall
          exact absurd (hall f (List.mem_cons_self _ _)) h
  · intro ts1 f ts2 h1 h2
    induction ts1 with
    | nil => rw [List.nil_append, detect_cons, if_pos h2]
    | cons g gs ih =>
      rw [List.cons_append, detect_cons,
        if_neg (not_not_intro (h1 g (List.mem_cons_self _ _)))]
      exact ih (fun g2 hg2 => h1 g2 (List.mem_cons_of_mem _ hg2))

/-- Witness for C2: with a first template that rejects 99 and a second that
accepts it, detection returns the second template's result. -/
theorem c2_first_match_wins_witness :
    detect_and_format_multi "99".toList
        [⟨[(1, '-')], 2⟩, ⟨[(1, '-')], 3⟩] =
      attempt_format "99".toList ⟨[(1, '-')], 3⟩ :=
  (c2_first_match_wins "99".toList).2 [⟨[(1, '-')], 2⟩] ⟨[(1, '-')], 3⟩ []
    (by decide) (by decide)

/-- C7: when attempt_format succeeds on a raw string, applying attempt_format
to the already-normalized output with the same template succeeds and returns
the identical string. -/
theorem c7_attempt_idempotent (r : List Char) (fmt : ParcelFormat)
    (hsep : ∀ q ∈ fmt.insertion_points, q.2 = '-' ∨ q.2 = '.')
    (h : attempt_format r fmt ≠ sentinel) :
    attempt_format (attempt_format r fmt) fmt = attempt_format r fmt := by
  obtain ⟨heq, ha, hl⟩ := attempt_format_success r fmt h
  have hsep2 : ∀ q ∈ fmt.insertion_points, isAlnumChar q.2 = false :=
    fun q hq => sep_not_alnum _ (hsep q hq)
  have h1 : stripNonAlnum (format_parcel_id (stripNonAlnum r) fmt.insertion_points) =
      stripNonAlnum r := by
    rw [stripNonAlnum_format_parcel_id _ _ hsep2, stripNonAlnum_idem]
  rw [heq, attempt_format_eq_candidate _ fmt (by rw [h1]; exact ha)
    (by rw [h1]; exact hl), h1]

/-- Witness for C7 at the concrete input 123456789 with the template parsed
from 12-345.6789. -/
theorem c7_attempt_idempotent_witness :
    attempt_format (attempt_format "123456789".toList ⟨[(2, '-'), (5, '.')], 11⟩)
        ⟨[(2, '-'), (5, '.')], 11⟩ =
      attempt_format "123456789".toList ⟨[(2, '-'), (5, '.')], 11⟩ :=
  c7_attempt_idempotent "123456789".toList ⟨[(2, '-'), (5, '.')], 11⟩
    (by decide) (by decide)

/-- C9: a raw string with no alphanumeric characters at all is mapped to the
literal sentinel by detect_and_format_multi, for every template list. -/
theorem c9_no_alnum_always_sentinel (r : List Char) (ts : List ParcelFormat)
    (h : stripNonAlnum r = []) : detect_and_format_multi r ts = sentinel := by
  induction ts with
  | nil => rfl
  | cons f fs ih =>
    rw [detect_cons, if_neg (not_not_intro (attempt_format_sentinel_of_empty r f h))]
    exact ih

/-- Witness for C9: the empty string with a non-empty template list, and a
separator-only string with the empty template list, both yield the sentinel. -/
theorem c9_no_alnum_always_sentinel_witness :
    detect_and_format_multi "".toList [⟨[(2, '-'), (5, '.')], 11⟩] = sentinel ∧
    detect_and_format_multi " -. ".toList [] = sentinel :=
  ⟨c9_no_alnum_always_sentinel "".toList [⟨[(2, '-'), (5, '.')], 11⟩] (by decide),
    c9_no_alnum_always_sentinel " -. ".toList [] (by decide)⟩

/-- C10: with dash/period templates the reconstructed candidate never equals
the sentinel; every successful result of attempt_format, and hence of
detect_and_format_multi, consists only of alphanumerics and the separators
dash and period; and the sentinel itself fails that character property
(it contains spaces), so the sentinel equality test distinguishes failure
from success unambiguously. -/
theorem c10_success_never_sentinel (r : List Char) (fmt : ParcelFormat)
    (ts : List ParcelFormat)
    (hsep : ∀ q ∈ fmt.insertion_points, q.2 = '-' ∨ q.2 = '.')
    (hts : ∀ f ∈ ts, ∀ q ∈ f.insertion_points, q.2 = '-' ∨ q.2 = '.') :
    format_parcel_id (stripNonAlnum r) fmt.insertion_points ≠ sentinel ∧
    (attempt_format r fmt ≠ sentinel →
      ∀ c ∈ attempt_format r fmt, isAlnumChar c = true ∨ c = '-' ∨ c = '.') ∧
    (detect_and_format_multi r ts ≠ sentinel →
      ∀ c ∈ detect_and_format_multi r ts,
        isAlnumChar c = true ∨ c = '-' ∨ c = '.') ∧
    ¬(∀ c ∈ sentinel, isAlnumChar c = true ∨ c = '-' ∨ c = '.') :=
  ⟨format_parcel_id_ne_sentinel r fmt.insertion_points hsep,
    fun h => attempt_format_chars r fmt hsep h,
    fun h => detect_chars r ts hts h,
    by decide⟩

/-- Witness for C10: the candidate built from 12 with a dash template is not
the sentinel. -/
theorem c10_success_never_sentinel_witness :
    format_parcel_id (stripNonAlnum "12".toList)
      (ParcelFormat.mk [(1, '-')] 3).insertion_points ≠ sentinel :=
  (c10_success_never_sentinel "12".toList ⟨[(1, '-')], 3⟩ [⟨[(1, '-')], 3⟩]
    (by decide) (by decide)).1

/-- C4: decomposing the example around any single character shows that the
extractor appends, in left-to-right order, one insertion point (n, c) for each
dash or period occurrence, where n counts the alphanumeric characters strictly
before it; alphanumerics advance the count without adding a point; every other
character neither adds a point nor advances the count; and target_length is
the length of the whitespace-trimmed example. -/
theorem c4_extractor_characterization (pre suf : List Char) (c : Char) :
    parseInsertionPoints (pre ++ c :: suf) 0 =
      parseInsertionPoints pre 0 ++
        ((if isAlnumChar c then [] else if isSep c then
            [((stripNonAlnum pre).length, c)] else []) ++
          (parseInsertionPoints suf 0).map
            (fun q => (q.1 + ((stripNonAlnum pre).length +
              (if isAlnumChar c then 1 else 0)), q.2))) ∧
    (parse_parcel_format (pre ++ c :: suf)).2.2 = (pyStrip (pre ++ c :: suf)).length := by
  refine ⟨?_, rfl⟩
  rw [parseInsertionPoints_append pre (c :: suf) 0, Nat.zero_add]
  by_cases h1 : isAlnumChar c = true
  · rw [parseInsertionPoints_cons_alnum _ _ _ h1,
      parseInsertionPoints_shift suf ((stripNonAlnum pre).length + 1)]
    simp only [h1, if_true, List.nil_append]
  · have h1f : isAlnumChar c = false := by
      exact Bool.not_eq_true _ ▸ (by simpa using h1)
    by_cases h2 : isSep c = true
    · rw [parseInsertionPoints_cons_sep _ _ _ h1f h2,
        parseInsertionPoints_shift suf (stripNonAlnum pre).length]
      simp only [h1f, h2, Bool.false_eq_true, if_false, if_true, List.singleton_append]
      rfl
    · have h2f : isSep c = false := by
        exact Bool.not_eq_true _ ▸ (by simpa using h2)
      rw [parseInsertionPoints_cons_other _ _ _ h1f h2f,
        parseInsertionPoints_shift suf (stripNonAlnum pre).length]
      simp only [h1f, h2f, Bool.false_eq_true, if_false, List.nil_append]
      rfl

/-- C3 fails as stated: the example 1 2 contains an alphanumeric character,
yet the reconstruction of its stripped form from its own insertion points has
length 2 while the trimmed example has length 3 (the interior space is counted
by len(strip(e)) but absent from the reconstruction). -/
theorem c3_roundtrip_counterexample :
    (∃ c ∈ "1 2".toList, isAlnumChar c = true) ∧
    (format_parcel_id (stripNonAlnum "1 2".toList)
        (parseInsertionPoints "1 2".toList 0)).length ≠
      (pyStrip "1 2".toList).length := by
  decide

/-- C3 amended: the round trip does hold for examples consisting only of
alphanumerics and their own dash/period separators (no other ignored
characters anywhere): the reconstruction then equals the trimmed example
itself, and in particular has its length. -/
theorem c3_roundtrip_amended (e : List Char)
    (hne : ∃ c ∈ e, isAlnumChar c = true)
    (hchars : ∀ c ∈ e, isAlnumChar c = true ∨ isSep c = true) :
    format_parcel_id (stripNonAlnum e) (parseInsertionPoints e 0) = pyStrip e ∧
    (format_parcel_id (stripNonAlnum e) (parseInsertionPoints e 0)).length =
      (pyStrip e).length := by
  have hstrip : pyStrip e = e := pyStrip_eq_self (by
    intro c hc
    rcases hchars c hc with h | h
    · exact alnum_not_pyspace c h
    · exact sep_not_pyspace c h)
  rw [hstrip]
  exact ⟨roundtrip_format e hchars, by rw [roundtrip_format e hchars]⟩

/-- Witness for the amended C3 at the example 12-345.6789. -/
theorem c3_roundtrip_amended_witness :
    format_parcel_id (stripNonAlnum "12-345.6789".toList)
        (parseInsertionPoints "12-345.6789".toList 0) =
      pyStrip "12-345.6789".toList :=
  (c3_roundtrip_amended "12-345.6789".toList (by decide) (by decide)).1

/-- C5: applying the insertion points right to left agrees with the spec's
left-to-right reconstruction whenever the positions are non-decreasing and
bounded by the length of the alphanumeric string, so each separator lands
immediately after its position-th original character; an insertion point whose
position exceeds the current string length at its processing step has its
separator appended at the end rather than discarded; and every insertion point
contributes exactly one character to the output. -/
theorem c5_reverse_insertion (s : List Char) (pts : List (Nat × Char)) :
    (List.Pairwise (fun a b => a.1 ≤ b.1) pts →
      (∀ q ∈ pts, q.1 ≤ s.length) →
      format_parcel_id s pts = reconstructSpec s pts) ∧
    (∀ (pre : List (Nat × Char)) (q : Nat) (c : Char) (post : List (Nat × Char)),
      s.length + post.length < q →
      format_parcel_id s (pre ++ (q, c) :: post) =
        format_parcel_id (format_parcel_id s post ++ [c]) pre) ∧
    (format_parcel_id s pts).length = s.length + pts.length := by
  refine ⟨fun h1 h2 => format_parcel_id_eq_reconstructSpec s pts h1 h2, ?_,
    format_parcel_id_length s pts⟩
  intro pre q c post hq
  rw [format_parcel_id_append]
  congr 1
  rw [format_parcel_id_cons]
  have hcond : ¬((q, c).1 ≤ (format_parcel_id s post).length) := by
    rw [format_parcel_id_length]
    show ¬(q ≤ s.length + post.length)
    omega
  unfold insertOne
  rw [if_neg hcond]

/-- Witness for C5: an in-bounds sorted template matches the spec
reconstruction on abc, and an out-of-range position on ab is appended. -/
theorem c5_reverse_insertion_witness :
    format_parcel_id "abc".toList [(1, '-'), (2, '.')] =
      reconstructSpec "abc".toList [(1, '-'), (2, '.')] ∧
    format_parcel_id "ab".toList ([] ++ (9, '-') :: []) =
      format_parcel_id (format_parcel_id "ab".toList [] ++ ['-']) [] :=
  ⟨(c5_reverse_insertion "abc".toList [(1, '-'), (2, '.')]).1 (by decide) (by decide),
    (c5_reverse_insertion "ab".toList []).2.1 [] 9 '-' [] (by decide)⟩

/-- C6: when no template matches, get_parts_for_multi returns the empty list;
when some template matches, concatenating the returned segments with no
separators yields exactly the alphanumeric-stripped form of the first-matching
template's reconstructed candidate. -/
theorem c6_segment_coverage (r : List Char) (ts : List ParcelFormat)
    (hpw : ∀ f ∈ ts, List.Pairwise (fun a b => a.1 ≤ b.1) f.insertion_points) :
    (detect_and_format_multi r ts = sentinel → get_parts_for_multi r ts = []) ∧
    (detect_and_format_multi r ts ≠ sentinel →
      (get_parts_for_multi r ts).flatten =
        stripNonAlnum (detect_and_format_multi r ts)) := by
  induction ts with
  | nil => exact ⟨fun _ => rfl, fun h => absurd (detect_nil r) h⟩
  | cons f fs ih =>
    have ih2 := ih (fun g hg => hpw g (List.mem_cons_of_mem _ hg))
    by_cases hf : attempt_format r f = sentinel
    · rw [detect_cons, get_parts_cons, if_neg (not_not_intro hf),
        if_neg (not_not_intro hf)]
      exact ih2
    · rw [detect_cons, get_parts_cons, if_pos hf, if_pos hf]
      refine ⟨fun habs => absurd habs hf, fun _ => ?_⟩
      rw [flatten_partsFrom f.insertion_points (stripNonAlnum (attempt_format r f)) 0
        (hpw f (List.mem_cons_self _ _)) (fun q _ => Nat.zero_le _), List.drop_zero]

/-- Witness for C6 on the concrete input 123456789 with the template parsed
from 12-345.6789. -/
theorem c6_segment_coverage_witness :
    (get_parts_for_multi "123456789".toList [⟨[(2, '-'), (5, '.')], 11⟩]).flatten =
      stripNonAlnum (detect_and_format_multi "123456789".toList
        [⟨[(2, '-'), (5, '.')], 11⟩]) :=
  (c6_segment_coverage "123456789".toList [⟨[(2, '-'), (5, '.')], 11⟩]
    (by decide)).2 (by decide)

/-- C8: the end-to-end concrete scenario: parsing 12-345.6789 yields insertion
points (2,-) and (5,.) with target length 11; detection reformats 123456789 to
12-345.6789; and segmentation returns 12, 345, 6789. -/
theorem c8_scenario_one :
    parse_parcel_format "12-345.6789".toList =
      ("123456789".toList, [(2, '-'), (5, '.')], 11) ∧
    detect_and_format_multi "123456789".toList [⟨[(2, '-'), (5, '.')], 11⟩] =
      "12-345.6789".toList ∧
    get_parts_for_multi "123456789".toList [⟨[(2, '-'), (5, '.')], 11⟩] =
      ["12".toList, "345".toList, "6789".toList] := by
  decide
